import Mathlib

/-!
Shallow embedding of the `core_numeric` C++ library (src/main.cpp).

Modelling choices:
* `int` (and every integral element type) is modelled by `ℤ`; the claims
  under consideration do not involve machine-word overflow.
* `double` is modelled by `ℚ` (exact arithmetic); all concrete values used
  by the driver and the spec are exactly representable, and the claims are
  about the algorithms, not rounding.
* `container[0]` on an empty vector (an out-of-bounds read, undefined
  behaviour) is modelled by `Option`: `max` returns `none` on `[]`.
* C++ integer division truncates toward zero, which is `Int.tdiv` (not the
  Euclidean `/` of `ℤ`).
* The C++ fold expressions `(xs + ...)` in the variadic forms are unary
  right folds over a non-empty pack, modelled by `foldSum` on a head
  element plus a tail list.
-/

namespace core_numeric

/-- `sum` (src/main.cpp lines 34-45): `Q result{}; for (elem : container) result += elem;`. -/
def sum {α : Type} [Zero α] [Add α] (l : List α) : α :=
  l.foldl (· + ·) 0

/-- `mean`, integral branch (src/main.cpp lines 52-53):
`sum(container) / static_cast<Q>(container.size())` with C++ truncating division. -/
def mean (l : List ℤ) : ℤ :=
  Int.tdiv (sum l) (l.length : ℤ)

/-- `mean`, floating branch (src/main.cpp lines 54-57):
`double s = 0.0; for (x : container) s += double(x); return s / double(size);`. -/
def meanF (l : List ℚ) : ℚ :=
  (l.foldl (fun s x => s + x) 0) / (l.length : ℚ)

/-- `variance`, integral branch (src/main.cpp lines 65-73): floating mean from the
exact integer sum, then mean of squared deviations, all in `double`. -/
def variance (l : List ℤ) : ℚ :=
  let mu : ℚ := ((sum l : ℤ) : ℚ) / (l.length : ℚ)
  let acc : ℚ := l.foldl (fun (a : ℚ) (x : ℤ) => a + ((x : ℚ) - mu) * ((x : ℚ) - mu)) 0
  acc / (l.length : ℚ)

/-- `variance`, floating branch (src/main.cpp lines 74-85): accumulate the floating
mean, then accumulate squared deviations, divide by the count. -/
def varianceF (l : List ℚ) : ℚ :=
  let mu : ℚ := (l.foldl (fun s x => s + x) 0) / (l.length : ℚ)
  let acc : ℚ := l.foldl (fun a x => a + (x - mu) * (x - mu)) 0
  acc / (l.length : ℚ)

/-- `max` (src/main.cpp lines 88-100): `Q result = container[0];` then
`for (elem : container) if (elem > result) result = elem;`.  The element
comparison `elem > result` is the template parameter's `operator>`, passed
here as `gt`.  `container[0]` on an empty container is an out-of-bounds
read, modelled as `none`. -/
def max {α : Type} (gt : α → α → Bool) (l : List α) : Option α :=
  match l with
  | [] => none
  | h :: _ => some (l.foldl (fun result elem => if gt elem result then elem else result) h)

/-- `transform_reduce` (src/main.cpp lines 102-112):
`R result{}; for (x : container) result += func(x);`. -/
def transform_reduce {α β : Type} [Zero β] [Add β] (l : List α) (f : α → β) : β :=
  l.foldl (fun result x => result + f x) 0

/-- Unary right fold `(xs + ...)` over a non-empty pack `x, xs...`:
`x1 + (x2 + (... + xN))`. -/
def foldSum : ℚ → List ℚ → ℚ
  | x, [] => x
  | x, y :: ys => x + foldSum y ys

/-- `mean_variadic` (src/main.cpp lines 119-123):
`(static_cast<double>(xs) + ...) / n` with `n = sizeof...(xs)`.
Arguments are modelled already widened to `ℚ`; `N ≥ 1` is forced by the
head/tail shape. -/
def mean_variadic (x : ℚ) (xs : List ℚ) : ℚ :=
  foldSum x xs / ((x :: xs).length : ℚ)

/-- `variance_variadic` (src/main.cpp lines 125-132): floating mean of the
widened arguments, then the fold of squared deviations, divided by `n`. -/
def variance_variadic (x : ℚ) (xs : List ℚ) : ℚ :=
  let n : ℚ := ((x :: xs).length : ℚ)
  let mean := foldSum x xs / n
  foldSum ((x - mean) * (x - mean)) (xs.map fun y => (y - mean) * (y - mean)) / n

end core_numeric

/-- Population variance as the spec words it (§4.2, glossary): the mean of
squared deviations from the (untruncated) mean, divided by the full count. -/
def popVariance (l : List ℚ) : ℚ :=
  (l.map (fun x => (x - l.sum / (l.length : ℚ)) ^ 2)).sum / (l.length : ℚ)

/-- The C++ comparison `elem > result` for an ordered element type,
as the Boolean comparator passed to `core_numeric.max`. -/
def gtLt {α : Type} [LT α] [DecidableRel (α := α) (· < ·)] : α → α → Bool :=
  fun a b => decide (b < a)

/-- The C++ types relevant to the capability predicates: the arithmetic
(integral and floating-point) fundamental types plus `std::string` as a
representative non-arithmetic type. -/
inductive CppTy : Type
  | bool | char | schar | uchar | wchar | char8 | char16 | char32
  | short | ushort | int | uint | long | ulong | llong | ullong
  | float | double | ldouble | string
  deriving DecidableEq

/-- `std::is_integral_v` on the modelled types: `bool`, the character types
and the signed/unsigned integer types. -/
def isIntegral : CppTy → Bool
  | .bool | .char | .schar | .uchar | .wchar | .char8 | .char16 | .char32
  | .short | .ushort | .int | .uint | .long | .ulong | .llong | .ullong => true
  | _ => false

/-- `std::is_floating_point_v` on the modelled types. -/
def isFloatingPoint : CppTy → Bool
  | .float | .double | .ldouble => true
  | _ => false

/-- `std::is_arithmetic_v` on the modelled types. -/
def is_arithmetic (t : CppTy) : Bool := isIntegral t || isFloatingPoint t

/-- The `Comparable` concept (src/main.cpp lines 25-30):
`is_arithmetic_v<T> && !is_same_v<T,char> && !is_same_v<T,signed char> &&
!is_same_v<T,unsigned char>`.  Required by `max` (line 89) and by every
variadic form (lines 114, 119, 125, 134). -/
def Comparable (t : CppTy) : Bool :=
  is_arithmetic t && !(t == .char) && !(t == .schar) && !(t == .uchar)

/-- Modelled from the spec: the character/text-code types of C++ (§3 excludes
any "character/text-code type, even if binary-represented as one"), i.e. the
narrow character types plus the wide/Unicode character types. -/
def isCharCode : CppTy → Bool
  | .char | .schar | .uchar | .wchar | .char8 | .char16 | .char32 => true
  | _ => false

section FoldLemmas

variable {M : Type} [AddMonoid M]

lemma foldl_add_eq_sum (l : List M) (a : M) :
    l.foldl (· + ·) a = a + l.sum := by
  induction l generalizing a with
  | nil => simp
  | cons x t ih => simp [List.foldl_cons, ih (a + x), add_assoc]

lemma foldl_add_map_eq_sum {α : Type} (g : α → M) (l : List α) (a : M) :
    l.foldl (fun r x => r + g x) a = a + (l.map g).sum := by
  induction l generalizing a with
  | nil => simp
  | cons x t ih => simp [List.foldl_cons, ih (a + g x), add_assoc]

lemma core_sum_eq_sum (l : List M) : core_numeric.sum l = l.sum := by
  simp [core_numeric.sum, foldl_add_eq_sum]

end FoldLemmas

lemma foldl_add_eq_sum_rat (l : List ℚ) (a : ℚ) :
    l.foldl (fun s x => s + x) a = a + l.sum := by
  induction l generalizing a with
  | nil => simp
  | cons x t ih => simp [List.foldl_cons, ih (a + x), add_assoc]

lemma cast_core_sum (l : List ℤ) :
    ((core_numeric.sum l : ℤ) : ℚ) = (l.map (Int.cast : ℤ → ℚ)).sum := by
  rw [core_sum_eq_sum]
  induction l with
  | nil => simp
  | cons x t ih => rw [List.map_cons, List.sum_cons, List.sum_cons, Int.cast_add, ih]

lemma varianceF_eq_popVariance (l : List ℚ) :
    core_numeric.varianceF l = popVariance l := by
  simp only [core_numeric.varianceF, popVariance, foldl_add_eq_sum_rat, zero_add]
  rw [foldl_add_map_eq_sum (fun x => (x - l.sum / (l.length : ℚ)) * (x - l.sum / (l.length : ℚ)))]
  simp [pow_two]

lemma variance_eq_varianceF_map (l : List ℤ) :
    core_numeric.variance l = core_numeric.varianceF (l.map (Int.cast : ℤ → ℚ)) := by
  simp only [core_numeric.variance, core_numeric.varianceF, List.length_map]
  rw [foldl_add_eq_sum_rat, zero_add, cast_core_sum, List.foldl_map]

lemma sum_map_sq_nonneg (l : List ℚ) (c : ℚ) :
    0 ≤ (l.map (fun x => (x - c) ^ 2)).sum := by
  apply List.sum_nonneg
  intro x hx
  obtain ⟨y, _, rfl⟩ := List.mem_map.mp hx
  positivity

lemma sum_map_sq_eq_zero_iff (l : List ℚ) (c : ℚ) :
    (l.map (fun x => (x - c) ^ 2)).sum = 0 ↔ ∀ x ∈ l, x = c := by
  induction l with
  | nil => simp
  | cons h t ih =>
    simp only [List.map_cons, List.sum_cons, List.mem_cons]
    rw [add_eq_zero_iff_of_nonneg (by positivity) (sum_map_sq_nonneg t c), ih,
      sq_eq_zero_iff, sub_eq_zero]
    constructor
    · rintro ⟨rfl, hall⟩ x hx
      rcases hx with rfl | hx
      · rfl
      · exact hall x hx
    · intro hall
      exact ⟨hall h (Or.inl rfl), fun x hx => hall x (Or.inr hx)⟩

lemma sum_of_constant (l : List ℚ) (c : ℚ) (h : ∀ x ∈ l, x = c) :
    l.sum = (l.length : ℚ) * c := by
  induction l with
  | nil => simp
  | cons a t ih =>
    rw [List.sum_cons, List.length_cons, ih (fun x hx => h x (List.mem_cons_of_mem a hx)),
      h a (List.mem_cons_self a t)]
    push_cast
    ring

lemma popVariance_nonneg (l : List ℚ) : 0 ≤ popVariance l := by
  exact div_nonneg (sum_map_sq_nonneg l _) (by positivity)

lemma popVariance_eq_zero_iff (l : List ℚ) (hne : l ≠ []) :
    popVariance l = 0 ↔ ∀ x ∈ l, ∀ y ∈ l, x = y := by
  have hlen : (l.length : ℚ) ≠ 0 := by
    have h0 : l.length ≠ 0 := by simpa [List.length_eq_zero] using hne
    exact_mod_cast h0
  rw [popVariance, div_eq_zero_iff, or_iff_left hlen, sum_map_sq_eq_zero_iff]
  constructor
  · intro hall x hx y hy
    rw [hall x hx, hall y hy]
  · intro hall x hx
    obtain ⟨h, t, rfl⟩ := List.exists_cons_of_ne_nil hne
    have hx_h : x = h := hall x hx h (List.mem_cons_self h t)
    have : (h :: t).sum = ((h :: t).length : ℚ) * h :=
      sum_of_constant _ h (fun y hy => hall y hy h (List.mem_cons_self h t))
    rw [this, mul_div_cancel_left₀ _ hlen]
    exact hx_h

lemma max_loop_spec {α : Type} [LinearOrder α] (l : List α) (a : α) :
    (l.foldl (fun result elem => if gtLt elem result then elem else result) a = a ∨
      l.foldl (fun result elem => if gtLt elem result then elem else result) a ∈ l) ∧
    a ≤ l.foldl (fun result elem => if gtLt elem result then elem else result) a ∧
    ∀ x ∈ l, x ≤ l.foldl (fun result elem => if gtLt elem result then elem else result) a := by
  induction l generalizing a with
  | nil => simp
  | cons x t ih =>
    simp only [List.foldl_cons, List.mem_cons]
    obtain ⟨ih1, ih2, ih3⟩ := ih (if gtLt x a then x else a)
    have hstep_a : a ≤ (if gtLt x a then x else a) := by
      by_cases hlt : gtLt x a = true
      · rw [if_pos hlt]
        exact le_of_lt (by simpa [gtLt] using hlt)
      · rw [if_neg hlt]
    have hstep_x : x ≤ (if gtLt x a then x else a) := by
      by_cases hlt : gtLt x a = true
      · rw [if_pos hlt]
      · rw [if_neg hlt]
        simpa [gtLt, not_lt] using hlt
    refine ⟨?_, le_trans hstep_a ih2, ?_⟩
    · rcases ih1 with h | h
      · by_cases hlt : gtLt x a = true
        · right; left; rw [h, if_pos hlt]
        · left; rw [h, if_neg hlt]
      · right; right; exact h
    · intro y hy
      rcases hy with rfl | hy
      · exact le_trans hstep_x ih2
      · exact ih3 y hy

lemma max_spec {α : Type} [LinearOrder α] (l : List α) (hne : l ≠ []) :
    ∃ m, core_numeric.max gtLt l = some m ∧ m ∈ l ∧ ∀ x ∈ l, x ≤ m := by
  obtain ⟨h, t, rfl⟩ := List.exists_cons_of_ne_nil hne
  refine ⟨(h :: t).foldl (fun result elem => if gtLt elem result then elem else result) h,
    rfl, ?_, (max_loop_spec (h :: t) h).2.2⟩
  rcases (max_loop_spec (h :: t) h).1 with heq | hmem
  · rw [heq]; exact List.mem_cons_self h t
  · exact hmem

lemma foldSum_eq_sum (x : ℚ) (xs : List ℚ) :
    core_numeric.foldSum x xs = (x :: xs).sum := by
  induction xs generalizing x with
  | nil => simp [core_numeric.foldSum]
  | cons y ys ih => simp [core_numeric.foldSum, ih, List.sum_cons]

lemma variance_variadic_eq_pop (x : ℚ) (xs : List ℚ) :
    core_numeric.variance_variadic x xs = popVariance (x :: xs) := by
  simp only [core_numeric.variance_variadic, foldSum_eq_sum, popVariance, List.map_cons,
    List.sum_cons, pow_two]

/-- C1: for every non-empty integer sequence, `mean` returns `sum(seq) / count`
with C++ truncating integer division; `mean([1,2,3,4])` yields `2`, not `2.5`. -/
theorem C1_mean_integral_truncating :
    (∀ l : List ℤ, l ≠ [] → core_numeric.mean l = Int.tdiv l.sum (l.length : ℤ)) ∧
    core_numeric.mean [1, 2, 3, 4] = 2 ∧
    ((core_numeric.mean [1, 2, 3, 4] : ℤ) : ℚ) ≠ 5 / 2 := by
  refine ⟨fun l _ => ?_, by decide, ?_⟩
  · simp [core_numeric.mean, core_sum_eq_sum]
  · rw [show core_numeric.mean [1, 2, 3, 4] = 2 by decide]
    norm_num

/-- Witness for C1 at the concrete input `[1,2,3,4]`. -/
theorem C1_mean_integral_truncating_witness :
    core_numeric.mean [1, 2, 3, 4] = Int.tdiv ([1, 2, 3, 4] : List ℤ).sum (([1, 2, 3, 4] : List ℤ).length : ℤ) :=
  C1_mean_integral_truncating.1 [1, 2, 3, 4] (by decide)

/-- C2: the code has no `EmptyInput` signal at all.  On the empty sequence,
`max` performs the out-of-bounds read `container[0]` (modelled as `none`),
and `mean`/`variance` reach an unguarded division by the zero count (written
here with Lean's total-division convention `x / 0 = 0`; in C++ the integral
division by zero is undefined behaviour and the floating branches produce
`NaN`) — never a typed failure result. -/
theorem C2_empty_input_unguarded :
    core_numeric.max gtLt ([] : List ℤ) = none ∧
    core_numeric.mean [] = 0 ∧
    core_numeric.variance [] = 0 ∧
    core_numeric.varianceF [] = 0 := by
  exact ⟨rfl, by decide, by norm_num [core_numeric.variance, core_numeric.sum],
    by norm_num [core_numeric.varianceF]⟩

/-- C3 counterexample: `wchar_t` is a character/text-code type, yet
`Comparable<wchar_t>` holds — the concept only excludes the three narrow
character types, so the claimed equivalence fails at `wchar_t`. -/
theorem C3_comparable_counterexample :
    Comparable CppTy.wchar = true ∧ isCharCode CppTy.wchar = true ∧
    Comparable CppTy.wchar ≠ (is_arithmetic CppTy.wchar && !(isCharCode CppTy.wchar)) := by
  decide

/-- C3 (amended): `Comparable(T)` holds iff `T` is arithmetic and is none of
`char`, `signed char`, `unsigned char`; the wide/Unicode character-code types
(`wchar_t`, `char8_t`, `char16_t`, `char32_t`) are not excluded, so operations
requiring `Comparable` reject only the three narrow character types (and all
non-arithmetic types such as `std::string`) at the call boundary. -/
theorem C3_comparable_amended :
    (∀ t : CppTy, Comparable t = true ↔
      (is_arithmetic t = true ∧ t ≠ CppTy.char ∧ t ≠ CppTy.schar ∧ t ≠ CppTy.uchar)) ∧
    Comparable CppTy.char = false ∧ Comparable CppTy.schar = false ∧
    Comparable CppTy.uchar = false ∧ Comparable CppTy.string = false ∧
    Comparable CppTy.wchar = true ∧ Comparable CppTy.char8 = true ∧
    Comparable CppTy.char16 = true ∧ Comparable CppTy.char32 = true := by
  refine ⟨fun t => ?_, by decide, by decide, by decide, by decide, by decide, by decide,
    by decide, by decide⟩
  cases t <;> decide

/-- C4: `sum` is the additive fold of the elements, in order, starting from
the additive identity; the empty sequence is a defined case returning zero;
`sum([1,2,3,4]) = 10` and `sum([1.5,2.0,0.5]) = 4.0`. -/
theorem C4_sum_additive_fold :
    (∀ (M : Type) [AddMonoid M] (l : List M), core_numeric.sum l = l.sum) ∧
    core_numeric.sum ([] : List ℤ) = 0 ∧
    core_numeric.sum ([1, 2, 3, 4] : List ℤ) = 10 ∧
    core_numeric.sum [(3 : ℚ) / 2, 2, 1 / 2] = 4 := by
  exact ⟨fun M _ l => core_sum_eq_sum l, by decide, by decide,
    by norm_num [core_numeric.sum]⟩

/-- C5: both branches of `variance` compute the population variance in exact
(`double`-modelled) arithmetic: squared deviations from the untruncated mean
`sum/count`, divided by the full count; at `[1,2,3,4]` this is `1.25`
(deviations from `2.5`, not from the truncated `mean` value `2`). -/
theorem C5_variance_population :
    (∀ l : List ℤ, l ≠ [] →
      core_numeric.variance l = popVariance (l.map (Int.cast : ℤ → ℚ))) ∧
    (∀ l : List ℚ, l ≠ [] → core_numeric.varianceF l = popVariance l) ∧
    core_numeric.variance [1, 2, 3, 4] = 5 / 4 := by
  refine ⟨fun l _ => ?_, fun l _ => varianceF_eq_popVariance l,
    by norm_num [core_numeric.variance, core_numeric.sum]⟩
  rw [variance_eq_varianceF_map, varianceF_eq_popVariance]

/-- Witness for C5 at the concrete input `[1,2,3,4]`. -/
theorem C5_variance_population_witness :
    core_numeric.variance [1, 2, 3, 4] =
      popVariance (([1, 2, 3, 4] : List ℤ).map (Int.cast : ℤ → ℚ)) :=
  C5_variance_population.1 [1, 2, 3, 4] (by decide)

/-- C6: for every non-empty sequence of an ordered element type, `max` returns
an element present in the input that no element exceeds under `>`; the loop
seeds with the first element and re-assigns only on a strict `>`, so the
first-seen maximal value survives ties (shown on tagged pairs whose `>`
compares only the value: the tag-`0` copy wins); `max([3,9,2,7]) = 9` and
`max([1.2,4.8,3.1]) = 4.8`. -/
theorem C6_max_greatest_element :
    (∀ (α : Type) [LinearOrder α] (l : List α), l ≠ [] →
      ∃ m, core_numeric.max gtLt l = some m ∧ m ∈ l ∧ ∀ x ∈ l, x ≤ m) ∧
    core_numeric.max gtLt ([3, 9, 2, 7] : List ℤ) = some 9 ∧
    core_numeric.max gtLt [(6 : ℚ) / 5, 24 / 5, 31 / 10] = some (24 / 5) ∧
    core_numeric.max (fun p q : ℚ × ℕ => decide (q.1 < p.1)) [(5, 0), (5, 1), (3, 2)] =
      some (5, 0) := by
  refine ⟨fun α _ l hne => max_spec l hne, by decide, ?_, ?_⟩
  · norm_num [core_numeric.max, gtLt]
  · norm_num [core_numeric.max]

/-- Witness for C6 at the concrete input `[3,9,2,7]`. -/
theorem C6_max_greatest_element_witness :
    ∃ m, core_numeric.max gtLt ([3, 9, 2, 7] : List ℤ) = some m ∧
      m ∈ ([3, 9, 2, 7] : List ℤ) ∧ ∀ x ∈ ([3, 9, 2, 7] : List ℤ), x ≤ m :=
  C6_max_greatest_element.1 ℤ [3, 9, 2, 7] (by decide)

/-- C7: the variadic mean and variance always work in the floating domain:
every argument is widened, the mean is `sum/N` with no truncating branch, the
variance is the mean of squared deviations from that floating mean; on the
all-integer arguments `1,2,3,4` they give `2.5` and `1.25`, differing from the
truncating collection `mean`. -/
theorem C7_variadic_always_floating :
    (∀ (x : ℚ) (xs : List ℚ),
      core_numeric.mean_variadic x xs = (x :: xs).sum / ((x :: xs).length : ℚ)) ∧
    (∀ (x : ℚ) (xs : List ℚ),
      core_numeric.variance_variadic x xs = popVariance (x :: xs)) ∧
    core_numeric.mean_variadic 1 [2, 3, 4] = 5 / 2 ∧
    core_numeric.variance_variadic 1 [2, 3, 4] = 5 / 4 ∧
    ((core_numeric.mean [1, 2, 3, 4] : ℤ) : ℚ) ≠ core_numeric.mean_variadic 1 [2, 3, 4] := by
  refine ⟨fun x xs => ?_, fun x xs => variance_variadic_eq_pop x xs, ?_, ?_, ?_⟩
  · simp [core_numeric.mean_variadic, foldSum_eq_sum]
  · norm_num [core_numeric.mean_variadic, core_numeric.foldSum]
  · norm_num [core_numeric.variance_variadic, core_numeric.foldSum]
  · rw [show core_numeric.mean [1, 2, 3, 4] = 2 by decide]
    norm_num [core_numeric.mean_variadic, core_numeric.foldSum]

/-- C8: `transform_reduce` maps `f` over the elements and folds the results
with `R`'s addition from `R`'s zero; the empty sequence yields zero;
`transform_reduce([1,2,3], x→x*x) = 14` and `transform_reduce([1,2,3], x→x+10) = 36`. -/
theorem C8_transform_reduce_map_sum :
    (∀ (α β : Type) [AddMonoid β] (l : List α) (f : α → β),
      core_numeric.transform_reduce l f = (l.map f).sum) ∧
    core_numeric.transform_reduce ([] : List ℤ) (fun x => x * x) = 0 ∧
    core_numeric.transform_reduce ([1, 2, 3] : List ℚ) (fun x => x * x) = 14 ∧
    core_numeric.transform_reduce ([1, 2, 3] : List ℤ) (fun x => x + 10) = 36 := by
  refine ⟨fun α β _ l f => ?_, by decide, ?_, by decide⟩
  · simp [core_numeric.transform_reduce, foldl_add_map_eq_sum]
  · norm_num [core_numeric.transform_reduce]

/-- C9: for every non-empty sequence, `variance` is non-negative, and it is
zero exactly when all elements of the sequence are equal (both the floating
branch and the integral branch). -/
theorem C9_variance_nonneg_zero_iff :
    (∀ l : List ℚ, l ≠ [] →
      0 ≤ core_numeric.varianceF l ∧
        (core_numeric.varianceF l = 0 ↔ ∀ x ∈ l, ∀ y ∈ l, x = y)) ∧
    (∀ l : List ℤ, l ≠ [] →
      0 ≤ core_numeric.variance l ∧
        (core_numeric.variance l = 0 ↔ ∀ x ∈ l, ∀ y ∈ l, x = y)) := by
  constructor
  · intro l hne
    rw [varianceF_eq_popVariance]
    exact ⟨popVariance_nonneg l, popVariance_eq_zero_iff l hne⟩
  · intro l hne
    rw [variance_eq_varianceF_map, varianceF_eq_popVariance]
    have hne2 : l.map (Int.cast : ℤ → ℚ) ≠ [] := by
      simpa [List.map_eq_nil_iff] using hne
    refine ⟨popVariance_nonneg _, ?_⟩
    rw [popVariance_eq_zero_iff _ hne2]
    constructor
    · intro hall x hx y hy
      have := hall (x : ℚ) (List.mem_map_of_mem _ hx) (y : ℚ) (List.mem_map_of_mem _ hy)
      exact_mod_cast this
    · intro hall x hx y hy
      obtain ⟨a, ha, rfl⟩ := List.mem_map.mp hx
      obtain ⟨b, hb, rfl⟩ := List.mem_map.mp hy
      exact_mod_cast hall a ha b hb

/-- Witness for C9 at the concrete input `[1,2]`. -/
theorem C9_variance_nonneg_zero_iff_witness :
    0 ≤ core_numeric.varianceF [1, 2] ∧
      (core_numeric.varianceF [1, 2] = 0 ↔ ∀ x ∈ [(1 : ℚ), 2], ∀ y ∈ [(1 : ℚ), 2], x = y) :=
  C9_variance_nonneg_zero_iff.1 [1, 2] (by decide)

/-- C10: on every non-empty integer sequence, the integral branch of
`variance` (floating mean from the exact integer sum) returns the same value
as the floating branch applied to the same elements converted to the floating
domain: the per-element-type branch does not change the result. -/
theorem C10_variance_branches_agree :
    ∀ l : List ℤ, l ≠ [] →
      core_numeric.variance l = core_numeric.varianceF (l.map (Int.cast : ℤ → ℚ)) :=
  fun l _ => variance_eq_varianceF_map l

/-- Witness for C10 at the concrete input `[1,2,3,4]`. -/
theorem C10_variance_branches_agree_witness :
    core_numeric.variance [1, 2, 3, 4] =
      core_numeric.varianceF (([1, 2, 3, 4] : List ℤ).map (Int.cast : ℤ → ℚ)) :=
  C10_variance_branches_agree [1, 2, 3, 4] (by decide)
